import Mathlib

/-!
Verification of the locale-aware number formatting module (`locales/intl.js`)
of the edge-react-gui repository.

The module's functions are embedded shallowly over `List Char` / `String`.
The process-wide mutable locale slot of the source is modelled by passing the
current locale explicitly to every operation; `setIntlLocale` is modelled as a
state transformer returning `Except` (a JavaScript `throw` is `Except.error`).
Separators are modelled as `Char`: the spec's data-model invariant fixes locale
separators to single characters, and every claim under verification concerns
single-character separators.  JavaScript string-to-number coercion (needed by
`isValidInput`, which returns `!isNaN(+s)`) is modelled by a recognizer of the
ECMAScript StringNumericLiteral grammar.
-/

namespace Intl

/-- Split a list at the first occurrence of `c`: returns the parts before and
after that occurrence, or `none` when `c` does not occur.  This is the building
block for modelling JavaScript `String.prototype.split` indices 0 and 1. -/
def splitFirst (c : Char) : List Char → Option (List Char × List Char)
  | [] => none
  | x :: xs =>
    if x = c then some ([], xs)
    else
      match splitFirst c xs with
      | none => none
      | some (a, b) => some (x :: a, b)

/-- JavaScript `s.split(sep)[0]` and `s.split(sep)[1]`: the part before the
first occurrence of `sep`, and (when `sep` occurs) the part between the first
and second occurrences.  Parts after a second separator are discarded, exactly
as destructuring `const [integers, decimals] = s.split(sep)` does. -/
def splitParts01 (c : Char) (l : List Char) : List Char × Option (List Char) :=
  match splitFirst c l with
  | none => (l, none)
  | some (a, b) =>
    match splitFirst c b with
    | none => (a, some b)
    | some (b1, _) => (a, some b1)

/-- Remove every occurrence of the character `c`: the literal-strip building
block of `removeAllEscaped` below, which models the source's global regex
replace `value.replace(new RegExp('\\' + sep, 'g'), '')` including the
separators whose backslash-escape is not a literal match. -/
def removeAllChar (c : Char) (l : List Char) : List Char :=
  l.filter (fun x => x ≠ c)

/-- Replace the first occurrence of `c` by `r`: models the JavaScript
string-pattern replace `value.replace(sep, '.')`, which substitutes only the
first occurrence. -/
def replaceFirstChar (c r : Char) : List Char → List Char
  | [] => []
  | x :: xs => if x = c then r :: xs else x :: replaceFirstChar c r xs

/-- Models `value.endsWith('.') || value.endsWith(',')`. -/
def endsWithDotComma (l : List Char) : Bool :=
  match l.getLast? with
  | some '.' => true
  | some ',' => true
  | _ => false

/-- The grouping loop of `formatNumber`, translated from the index-based
`for` loop: at each step the next `substr(i, 3)` chunk of the remaining
characters is appended after a grouping separator.  `rest` is the portion of
the integer part not yet consumed (`integers.substr(i)`), `acc` the output
built so far. -/
def groupLoopAux (sep : Char) : List Char → List Char → List Char
  | [], acc => acc
  | [a], acc => acc ++ [sep, a]
  | [a, b], acc => acc ++ [sep, a, b]
  | a :: b :: c :: rest, acc => groupLoopAux sep rest (acc ++ [sep, a, b, c])

/-- The digit-grouping of `formatNumber`: leftmost chunk of `len % 3` digits
(`3` when that is zero), then chunks of 3 joined by the grouping separator. -/
def groupDigits (sep : Char) (s : List Char) : List Char :=
  let len := s.length
  let i := if len % 3 = 0 then 3 else len % 3
  groupLoopAux sep (s.drop i) (s.take i)

/-- Chunks of three characters taken from the left, used to state the spec's
description of grouping ("groups of 3 digits from the right" is the same as:
a leftmost remainder group, then 3-character chunks from the left). -/
def chunk3 : List Char → List (List Char)
  | [] => []
  | [a] => [[a]]
  | [a, b] => [[a, b]]
  | a :: b :: c :: rest => [a, b, c] :: chunk3 rest

/-- Join chunks with a separator between consecutive chunks (the spec's
"joined by the locale's grouping separator"). -/
def joinSep (sep : Char) : List (List Char) → List Char
  | [] => []
  | [c] => c
  | c :: cs => c ++ sep :: joinSep sep cs

/-- Join chunks, preceding every chunk with the separator. -/
def joinTail (sep : Char) : List (List Char) → List Char
  | [] => []
  | c :: cs => sep :: (c ++ joinTail sep cs)

/-- The partition of the integer part described by the spec: the leftmost
group has `len mod 3` digits (3 when that is zero), the remaining groups have
3 digits each. -/
def specGroups (l : List Char) : List (List Char) :=
  let r := if l.length % 3 = 0 then 3 else l.length % 3
  l.take r :: chunk3 (l.drop r)

/-- The grouped integer part as the spec words it: the `specGroups` partition
joined by the grouping separator. -/
def specGroupedIntPart (sep : Char) (l : List Char) : List Char :=
  joinSep sep (specGroups l)

/-! ### JavaScript string-to-number coercion

`isValidInput` returns `!isNaN(+standardized)`.  The following recognizer
models whether ECMAScript `StringToNumber` yields a non-NaN value: after
trimming whitespace, the empty string coerces to 0, and otherwise the string
must match the StringNumericLiteral grammar (optionally signed decimal
literal or `Infinity`, or an unsigned hex/octal/binary literal). -/

/-- ECMAScript whitespace and line terminators trimmed by StringToNumber
(the common code points; exotic Unicode space separators behave alike). -/
def isJsWhitespace (c : Char) : Bool :=
  c = ' ' || c = '\t' || c = '\n' || c = '\r' ||
  c.toNat = 0x0B || c.toNat = 0x0C || c.toNat = 0xA0 ||
  c.toNat = 0xFEFF || c.toNat = 0x2028 || c.toNat = 0x2029

/-- Trim JavaScript whitespace from both ends. -/
def trimWs (l : List Char) : List Char :=
  ((l.dropWhile isJsWhitespace).reverse.dropWhile isJsWhitespace).reverse

def isHexDigitJs (c : Char) : Bool :=
  c.isDigit || ('a' ≤ c && c ≤ 'f') || ('A' ≤ c && c ≤ 'F')

def isOctDigitJs (c : Char) : Bool := '0' ≤ c && c ≤ '7'

def isBinDigitJs (c : Char) : Bool := c = '0' || c = '1'

/-- The part after an `e`/`E`: optional sign then one or more digits. -/
def expTail : List Char → Bool
  | '+' :: ds => ds ≠ [] && ds.all Char.isDigit
  | '-' :: ds => ds ≠ [] && ds.all Char.isDigit
  | ds => ds ≠ [] && ds.all Char.isDigit

/-- Empty, or an exponent part `e`/`E` followed by a signed digit string. -/
def expOpt : List Char → Bool
  | [] => true
  | 'e' :: r => expTail r
  | 'E' :: r => expTail r
  | _ => false

/-- StrUnsignedDecimalLiteral without the `Infinity` alternative:
`Digits ['.' Digits?] Exp?` or `'.' Digits Exp?`. -/
def unsignedDecLit (l : List Char) : Bool :=
  match l.takeWhile Char.isDigit, l.dropWhile Char.isDigit with
  | [], '.' :: r => (r.takeWhile Char.isDigit) ≠ [] && expOpt (r.dropWhile Char.isDigit)
  | [], _ => false
  | _ :: _, [] => true
  | _ :: _, '.' :: r => expOpt (r.dropWhile Char.isDigit)
  | _ :: _, rest => expOpt rest

/-- Unsigned non-decimal integer literals `0x…`, `0o…`, `0b…`. -/
def nonDecimalLit : List Char → Bool
  | '0' :: x :: rest =>
    ((x = 'x' || x = 'X') && rest ≠ [] && rest.all isHexDigitJs) ||
    ((x = 'o' || x = 'O') && rest ≠ [] && rest.all isOctDigitJs) ||
    ((x = 'b' || x = 'B') && rest ≠ [] && rest.all isBinDigitJs)
  | _ => false

def infinityChars : List Char := ['I', 'n', 'f', 'i', 'n', 'i', 't', 'y']

/-- StrNumericLiteral: a non-decimal literal, or an optionally signed
decimal literal or `Infinity`. -/
def strNumericLit (l : List Char) : Bool :=
  nonDecimalLit l ||
  (match l with
   | '+' :: r => r = infinityChars || unsignedDecLit r
   | '-' :: r => r = infinityChars || unsignedDecLit r
   | r => r = infinityChars || unsignedDecLit r)

/-- Whether JavaScript `!isNaN(+s)` holds for the character list `s`:
the trimmed string is empty (coerces to 0) or matches the numeric grammar.
Note this accepts `Infinity`, which is a number but not a finite one. -/
def jsNotNaN (l : List Char) : Bool :=
  let t := trimWs l
  t = [] || strNumericLit t

/-- Modelled from the spec: "return true iff the result parses as a finite
number" — a numeric string whose value is finite, i.e. the numeric grammar
without the `Infinity` alternative (overflow of finite literals beyond the
double range is not modelled). -/
def parsesAsFiniteNumber (l : List Char) : Bool :=
  let t := trimWs l
  t = [] || nonDecimalLit t ||
  (match t with
   | '+' :: r => unsignedDecLit r
   | '-' :: r => unsignedDecLit r
   | r => unsignedDecLit r)

/-! ### The grouping-separator regex

The source strips grouping separators with
`value.replace(new RegExp('\\' + groupingSeparator, 'g'), '')`.  For most
single characters the pattern `\c` is a literal match of `c` (escaped syntax
characters, and — per ECMAScript Annex B identity escapes — punctuation and
the letters that are not recognized escapes).  It is NOT a literal match when
`c` is a character-class escape (`d D s S w W`), a control escape
(`f n r t v`), a word-boundary assertion (`b B`), the control-letter prefix
(`c`, where `\c` alone matches the two-character text `\c`), or a digit
(legacy octal escapes).  `removeAllEscaped` models the global replace with
these semantics. -/

/-- JavaScript regex word characters, the class `\w`: `[A-Za-z0-9_]`. -/
def isWordCharJs (c : Char) : Bool :=
  c.isDigit || ('a' ≤ c && c ≤ 'z') || ('A' ≤ c && c ≤ 'Z') || c = '_'

/-- Whether the JavaScript regex built as `'\\' + c` matches exactly the
literal character `c`.  False for the class/control/assertion escape letters
and for digits (legacy octal escapes; the murky `\8`/`\9` cases are
conservatively excluded too — every theorem below already excludes digit
separators for independent reasons). -/
def regexEscapeIsLiteral (c : Char) : Bool :=
  !(c.isDigit || c = 'd' || c = 'D' || c = 's' || c = 'S' || c = 'w' || c = 'W' ||
    c = 'f' || c = 'n' || c = 'r' || c = 't' || c = 'v' || c = 'b' || c = 'B' ||
    c = 'c')

/-- Left-to-right removal of the two-character substring `\c`: the Annex B
reading of the pattern `\c` when no control letter follows (a literal
backslash atom followed by a literal `c`). -/
def removeBackslashC : List Char → List Char
  | [] => []
  | '\\' :: 'c' :: rest => removeBackslashC rest
  | x :: rest => x :: removeBackslashC rest

/-- Models `value.replace(new RegExp('\\' + c, 'g'), '')` for a single
character `c`: class escapes remove their class, control escapes remove the
control character, `\b`/`\B` are zero-width assertions (replacing empty
matches deletes nothing), `\c` removes the text `\c`, a single-digit escape
is a legacy octal escape removing the corresponding control character
(`\8`/`\9` act as literals), and every other character is removed
literally. -/
def removeAllEscaped (c : Char) (l : List Char) : List Char :=
  if c.isDigit then
    if c = '8' || c = '9' then removeAllChar c l
    else removeAllChar (Char.ofNat (c.toNat - '0'.toNat)) l
  else if c = 'd' then l.filter (fun x => !x.isDigit)
  else if c = 'D' then l.filter (fun x => x.isDigit)
  else if c = 's' then l.filter (fun x => !isJsWhitespace x)
  else if c = 'S' then l.filter (fun x => isJsWhitespace x)
  else if c = 'w' then l.filter (fun x => !isWordCharJs x)
  else if c = 'W' then l.filter (fun x => isWordCharJs x)
  else if c = 'f' then removeAllChar (Char.ofNat 12) l
  else if c = 'n' then removeAllChar (Char.ofNat 10) l
  else if c = 'r' then removeAllChar (Char.ofNat 13) l
  else if c = 't' then removeAllChar (Char.ofNat 9) l
  else if c = 'v' then removeAllChar (Char.ofNat 11) l
  else if c = 'b' || c = 'B' then l
  else if c = 'c' then removeBackslashC l
  else removeAllChar c l

/-! ### The external fixed-point decimal helper (biggystring `toFixed`)

`formatNumber` calls `toFixed(stringify, options.toFixed, options.toFixed)`
from the external `biggystring` library.  That library is not part of this
repository; the spec's collaborator contract describes it as "a fixed-point
decimal rounding/arithmetic primitive that takes a decimal string and a target
precision and returns a decimal string rounded to exactly that many places
without floating-point representation error". -/

/-- Increment a little-endian digit list by one, with carry. -/
def incRev : List Char → List Char
  | [] => ['1']
  | d :: ds => if d = '9' then '0' :: incRev ds else Char.ofNat (d.toNat + 1) :: ds

/-- Increment a big-endian digit list by one. -/
def incDigits (l : List Char) : List Char :=
  (incRev l.reverse).reverse

/-- Modelled from the spec: the external fixed-point decimal helper
(`biggystring`'s `toFixed`, called with equal minimum and maximum precision):
round (half-up) or pad the decimal part of a decimal string to exactly `n`
digits, operating on the digit text so no floating-point error occurs. -/
def bsToFixedL (s : List Char) (n : Nat) : List Char :=
  let sign : List Char := if s.head? = some '-' then ['-'] else []
  let mag : List Char := if s.head? = some '-' then s.tail else s
  let ip : List Char := match splitFirst '.' mag with | none => mag | some (a, _) => a
  let fp : List Char := match splitFirst '.' mag with | none => [] | some (_, b) => b
  if n = 0 then
    match fp.head? with
    | some d => if '5' ≤ d then sign ++ incDigits ip else sign ++ ip
    | none => sign ++ ip
  else if fp.length ≤ n then
    sign ++ ip ++ '.' :: (fp ++ List.replicate (n - fp.length) '0')
  else
    let keep := fp.take n
    let up := match (fp.drop n).head? with | some d => decide ('5' ≤ d) | none => false
    let digits := if up then incDigits (ip ++ keep) else ip ++ keep
    sign ++ digits.take (digits.length - n) ++ '.' :: digits.drop (digits.length - n)

/-- String-level wrapper for the fixed-point helper. -/
def bsToFixed (s : String) (n : Nat) : String :=
  ⟨bsToFixedL s.data n⟩

/-! ### Data model -/

/-- The locale descriptor installed in the process-wide slot.  The source
stores the separators as strings; the spec's data-model invariant fixes them
to single non-empty characters, so they are embedded as `Char`. -/
structure IntlLocaleType where
  localeIdentifier : String
  decimalSeparator : Char
  groupingSeparator : Char
deriving DecidableEq

/-- The default locale `EN_US_LOCALE` of the source. -/
def EN_US_LOCALE : IntlLocaleType :=
  { localeIdentifier := "en_US", decimalSeparator := '.', groupingSeparator := ',' }

/-- `IntlNumberFormatOptionsType`: `toFixed` is `none` when the option is
absent (JavaScript `undefined`); `noGrouping` absent and `false` behave
identically downstream and are both `false`. -/
structure IntlNumberFormatOptionsType where
  toFixed : Option Nat := none
  noGrouping : Bool := false
deriving DecidableEq

/-- A candidate locale descriptor as passed to `setIntlLocale`: each field may
be missing (JavaScript `undefined`).  A missing or empty `localeIdentifier`
is falsy; a separator, being a single character, is falsy exactly when
missing. -/
structure IntlLocaleInput where
  localeIdentifier : Option String := none
  decimalSeparator : Option Char := none
  groupingSeparator : Option Char := none
deriving DecidableEq

/-- The process-wide mutable state: the current-locale slot plus the console
warnings emitted so far (so that the diagnostic warning of `setIntlLocale`
is observable). -/
structure ProcState where
  locale : IntlLocaleType
  warnings : List String
deriving DecidableEq

/-- JavaScript truthiness of an optional string. -/
def truthyStr : Option String → Bool
  | none => false
  | some s => s ≠ ""

/-- JavaScript truthiness of an optional single-character separator. -/
def truthySep : Option Char → Bool
  | none => false
  | some _ => true

/-! ### The module's operations -/

/-- Core of `formatNumber` over character lists: apply the fixed-point helper
when `options.toFixed` is truthy (a JavaScript number is falsy when 0), split
on the native '.' into integer and decimal parts, group the integer part
unless `noGrouping`, and rejoin with the locale decimal separator when the
decimal part is truthy. -/
def formatNumberL (loc : IntlLocaleType) (s : List Char)
    (options : IntlNumberFormatOptionsType) : List Char :=
  let stringify :=
    match options.toFixed with
    | some n => if n = 0 then s else bsToFixedL s n
    | none => s
  let parts := splitParts01 '.' stringify
  let integers := parts.1
  let decimals := parts.2
  let intPart := if options.noGrouping then integers
                 else groupDigits loc.groupingSeparator integers
  match decimals with
  | some d => if d ≠ [] then intPart ++ loc.decimalSeparator :: d else intPart
  | none => intPart

/-- `formatNumber(number, options?)` with the current locale passed
explicitly. -/
def formatNumber (loc : IntlLocaleType) (number : String)
    (options : IntlNumberFormatOptionsType := {}) : String :=
  ⟨formatNumberL loc number.data options⟩

/-- Core of `formatNumberInput`: a trailing '.' or ',' is stripped, the rest
formatted (with default options) and the locale decimal separator re-appended;
otherwise `toFixed` is inferred from the typed decimal digits and caller
options override the inferred ones (`Object.assign`). -/
def formatNumberInputL (loc : IntlLocaleType) (input : List Char)
    (options : IntlNumberFormatOptionsType) : List Char :=
  if endsWithDotComma input then
    formatNumberL loc input.dropLast {} ++ [loc.decimalSeparator]
  else
    let inferred : Option Nat :=
      match splitFirst '.' input with
      | none => none
      | some (_, rest) =>
        let decimalPart := match splitFirst '.' rest with
          | none => rest
          | some (d, _) => d
        if decimalPart ≠ [] then some decimalPart.length else none
    let merged : IntlNumberFormatOptionsType :=
      { toFixed := match options.toFixed with | some n => some n | none => inferred,
        noGrouping := options.noGrouping }
    formatNumberL loc input merged

/-- `formatNumberInput(input, options?)`. -/
def formatNumberInput (loc : IntlLocaleType) (input : String)
    (options : IntlNumberFormatOptionsType := {}) : String :=
  ⟨formatNumberInputL loc input.data options⟩

/-- Core of `formatToNativeNumber`: normalize a trailing '.' or ',' to the
locale decimal separator, strip grouping separators via the escaped global
regex (`removeAllEscaped`), then replace the first decimal separator with the
native '.' (a string-pattern replace, always literal). -/
def formatToNativeNumberL (loc : IntlLocaleType) (value : List Char) : List Char :=
  let v := if endsWithDotComma value
           then value.dropLast ++ [loc.decimalSeparator]
           else value
  replaceFirstChar loc.decimalSeparator '.' (removeAllEscaped loc.groupingSeparator v)

/-- `formatToNativeNumber(value)`. -/
def formatToNativeNumber (loc : IntlLocaleType) (value : String) : String :=
  ⟨formatToNativeNumberL loc value.data⟩

/-- Core of `isValidInput`: a string equal to the decimal separator alone is
valid; otherwise the value is canonicalized exactly as in
`formatToNativeNumber` and validity is `!isNaN(+standardized)`. -/
def isValidInputL (loc : IntlLocaleType) (value : List Char) : Bool :=
  if value = [loc.decimalSeparator] then true
  else jsNotNaN (formatToNativeNumberL loc value)

/-- `isValidInput(value)`. -/
def isValidInput (loc : IntlLocaleType) (value : String) : Bool :=
  isValidInputL loc value.data

/-- Core of `prettifyNumber`: strip leading zeros (`/^0+/`), then prefix '0'
when the remainder starts with the locale decimal separator. -/
def prettifyNumberL (loc : IntlLocaleType) (input : List Char) : List Char :=
  let out := input.dropWhile (fun c => c = '0')
  if out.head? = some loc.decimalSeparator then '0' :: out else out

/-- `prettifyNumber(input)`. -/
def prettifyNumber (loc : IntlLocaleType) (input : String) : String :=
  ⟨prettifyNumberL loc input.data⟩

/-- Core of `truncateDecimals`: an empty input becomes "0" unless `allowBlank`;
an input without the locale decimal separator is returned unchanged; otherwise
`const [integers, decimals] = input.split(decimalSeparator)` and the result is
`integers + separator + decimals.slice(0, precision)` (a missing precision
keeps the whole decimal part). -/
def truncateDecimalsL (loc : IntlLocaleType) (input : List Char)
    (precision : Option Nat) (allowBlank : Bool) : List Char :=
  let input := if input = [] then (if allowBlank then [] else ['0']) else input
  if input.contains loc.decimalSeparator then
    let parts := splitParts01 loc.decimalSeparator input
    let decimals := parts.2.getD []
    parts.1 ++ loc.decimalSeparator ::
      (match precision with | none => decimals | some p => decimals.take p)
  else input

/-- `truncateDecimals(input, precision?, allowBlank = false)`. -/
def truncateDecimals (loc : IntlLocaleType) (input : String)
    (precision : Option Nat := none) (allowBlank : Bool := false) : String :=
  ⟨truncateDecimalsL loc input.data precision allowBlank⟩

/-- `setIntlLocale(l)`: a missing argument throws; a descriptor with a falsy
`decimalSeparator`, `groupingSeparator` or `localeIdentifier` emits a warning
and installs the default locale; otherwise the descriptor is installed. -/
def setIntlLocale (l : Option IntlLocaleInput) (st : ProcState) :
    Except String ProcState :=
  match l with
  | none => Except.error "Please select locale for internationalization"
  | some l =>
    if !truthySep l.decimalSeparator || !truthySep l.groupingSeparator ||
       !truthyStr l.localeIdentifier then
      Except.ok
        { locale := EN_US_LOCALE,
          warnings := st.warnings ++
            ["Cannot recognize user locale preferences. Default will be used."] }
    else
      Except.ok
        { st with locale :=
            { localeIdentifier := l.localeIdentifier.getD "",
              decimalSeparator := l.decimalSeparator.getD '.',
              groupingSeparator := l.groupingSeparator.getD ',' } }

/-- A second European-style locale used by the spec's examples: grouping
separator '.', decimal separator ','. -/
def EU_STYLE_LOCALE : IntlLocaleType :=
  { localeIdentifier := "de_DE", decimalSeparator := ',', groupingSeparator := '.' }

/-- A French-style locale with a space as grouping separator. -/
def FR_SPACE_LOCALE : IntlLocaleType :=
  { localeIdentifier := "fr_FR", decimalSeparator := ',', groupingSeparator := ' ' }

/-- A pathological but valid locale descriptor whose grouping separator is
'd': the source then strips with the regex class escape `\d`, deleting
digits instead of the separator. -/
def D_CLASS_LOCALE : IntlLocaleType :=
  { localeIdentifier := "xx", decimalSeparator := '.', groupingSeparator := 'd' }

/-- Characters of a canonical integer part (optional sign, digits). -/
def SignDigits (A : List Char) : Prop := ∀ x ∈ A, x = '-' ∨ x.isDigit = true

/-- Spec-side counterpart of `formatNumber` with default options, following
the claim's words: split on '.', partition the integer part into groups of 3
from the right (leftmost group `len mod 3`, or 3 when that is 0) joined by
the grouping separator, and rejoin a non-empty decimal part with the locale
decimal separator. -/
def specFormatNumber (loc : IntlLocaleType) (s : String) : String :=
  let parts := splitParts01 '.' s.data
  let grouped := specGroupedIntPart loc.groupingSeparator parts.1
  match parts.2 with
  | some d => if d ≠ [] then ⟨grouped ++ loc.decimalSeparator :: d⟩ else ⟨grouped⟩
  | none => ⟨grouped⟩

/-! ### Lemmas about the list helpers -/

theorem splitFirst_of_not_mem {c : Char} : ∀ {l : List Char}, c ∉ l → splitFirst c l = none
  | [], _ => rfl
  | x :: xs, h => by
    have hx : x ≠ c := fun e => h (e ▸ List.mem_cons_self x xs)
    have hxs : c ∉ xs := fun m => h (List.mem_cons_of_mem x m)
    simp [splitFirst, hx, splitFirst_of_not_mem hxs]

theorem splitFirst_append {c : Char} (b : List Char) :
    ∀ {a : List Char}, c ∉ a → splitFirst c (a ++ c :: b) = some (a, b)
  | [], _ => by simp [splitFirst]
  | x :: xs, h => by
    have hx : x ≠ c := fun e => h (e ▸ List.mem_cons_self x xs)
    have hxs : c ∉ xs := fun m => h (List.mem_cons_of_mem x m)
    simp [splitFirst, hx, splitFirst_append b hxs]

theorem splitFirst_sound {c : Char} :
    ∀ {l a b : List Char}, splitFirst c l = some (a, b) → l = a ++ c :: b
  | [], _, _, h => by simp [splitFirst] at h
  | x :: xs, a, b, h => by
    by_cases hx : x = c
    · simp [splitFirst, hx] at h
      simp [hx, ← h.1, ← h.2]
    · simp only [splitFirst, if_neg hx] at h
      match hs : splitFirst c xs with
      | none => rw [hs] at h; exact absurd h (by simp)
      | some (a1, b1) =>
        rw [hs] at h
        have := splitFirst_sound hs
        simp only [Option.some.injEq, Prod.mk.injEq] at h
        simp [← h.1, ← h.2, this]

theorem replaceFirstChar_of_not_mem {c : Char} (r : Char) :
    ∀ {l : List Char}, c ∉ l → replaceFirstChar c r l = l
  | [], _ => rfl
  | x :: xs, h => by
    have hx : x ≠ c := fun e => h (e ▸ List.mem_cons_self x xs)
    have hxs : c ∉ xs := fun m => h (List.mem_cons_of_mem x m)
    simp [replaceFirstChar, hx, replaceFirstChar_of_not_mem r hxs]

theorem replaceFirstChar_append {c : Char} (r : Char) (b : List Char) :
    ∀ {a : List Char}, c ∉ a → replaceFirstChar c r (a ++ c :: b) = a ++ r :: b
  | [], _ => by simp [replaceFirstChar]
  | x :: xs, h => by
    have hx : x ≠ c := fun e => h (e ▸ List.mem_cons_self x xs)
    have hxs : c ∉ xs := fun m => h (List.mem_cons_of_mem x m)
    simp [replaceFirstChar, hx, replaceFirstChar_append r b hxs]

theorem removeAllChar_append (c : Char) (a b : List Char) :
    removeAllChar c (a ++ b) = removeAllChar c a ++ removeAllChar c b := by
  simp [removeAllChar, List.filter_append]

theorem removeAllChar_of_forall_ne {c : Char} {l : List Char}
    (h : ∀ x ∈ l, x ≠ c) : removeAllChar c l = l := by
  simp only [removeAllChar]
  rw [List.filter_eq_self]
  intro a ha
  simpa using h a ha

theorem removeAllChar_eq_nil {c : Char} {l : List Char}
    (h : ∀ x ∈ l, x = c) : removeAllChar c l = [] := by
  simp only [removeAllChar]
  rw [List.filter_eq_nil_iff]
  intro a ha
  simpa using h a ha

/-- For a separator whose backslash-escape is a literal regex match, the
escaped global replace is exactly the literal strip. -/
theorem removeAllEscaped_of_literal {c : Char} (h : regexEscapeIsLiteral c = true)
    (l : List Char) : removeAllEscaped c l = removeAllChar c l := by
  unfold regexEscapeIsLiteral at h
  simp at h
  obtain ⟨⟨⟨⟨⟨⟨⟨⟨⟨⟨⟨⟨⟨⟨h0, h1⟩, h2⟩, h3⟩, h4⟩, h5⟩, h6⟩, h7⟩, h8⟩, h9⟩, h10⟩,
    h11⟩, h12⟩, h13⟩, h14⟩ := h
  unfold removeAllEscaped
  simp [h0, h1, h2, h3, h4, h5, h6, h7, h8, h9, h10, h11, h12, h13, h14]

/-- The escaped global replace leaves the empty string empty, whatever the
separator. -/
theorem removeAllEscaped_nil (c : Char) : removeAllEscaped c [] = [] := by
  unfold removeAllEscaped
  simp [removeAllChar, removeBackslashC]

theorem getLast?_cons_ne {x : Char} {m : List Char} (h : m ≠ []) :
    (x :: m).getLast? = m.getLast? := by
  cases m with
  | nil => exact absurd rfl h
  | cons y ys => rfl

theorem getLast?_append_right : ∀ (a : List Char) {b : List Char}, b ≠ [] →
    (a ++ b).getLast? = b.getLast?
  | [], _, _ => rfl
  | x :: xs, b, h => by
    rw [List.cons_append,
      getLast?_cons_ne (fun hc => h (List.append_eq_nil.mp hc).2),
      getLast?_append_right xs h]

theorem mem_of_getLast?_eq_some : ∀ {l : List Char} {d : Char},
    l.getLast? = some d → d ∈ l
  | [], _, h => by simp at h
  | [a], d, h => by
    simp [List.getLast?] at h
    simp [h]
  | a :: b :: l, d, h => by
    have : (b :: l).getLast? = some d := h
    exact List.mem_cons_of_mem a (mem_of_getLast?_eq_some this)

theorem endsWithDotComma_eq_false {l : List Char}
    (h : ∀ d ∈ l.getLast?, d ≠ '.' ∧ d ≠ ',') : endsWithDotComma l = false := by
  unfold endsWithDotComma
  split
  · next hl => exact absurd rfl (h _ (by rw [hl]; rfl)).1
  · next hl => exact absurd rfl (h _ (by rw [hl]; rfl)).2
  · rfl

/-! ### The grouping loop versus the spec's partition -/

theorem chunk3_cons (a : Char) (as : List Char) :
    chunk3 (a :: as) = (a :: as).take 3 :: chunk3 (as.drop 2) := by
  match as with
  | [] => rfl
  | [_] => rfl
  | _ :: _ :: _ => rfl

theorem chunk3_ne_nil {m : List Char} (h : m ≠ []) : chunk3 m ≠ [] := by
  match m with
  | [] => exact absurd rfl h
  | [_] => simp [chunk3]
  | [_, _] => simp [chunk3]
  | _ :: _ :: _ :: _ => simp [chunk3]

theorem joinTail_ne_nil (sep : Char) {cs : List (List Char)} (h : cs ≠ []) :
    joinTail sep cs ≠ [] := by
  match cs with
  | [] => exact absurd rfl h
  | c :: cs => simp [joinTail]

theorem joinSep_eq_joinTail (sep : Char) (a : List Char) :
    ∀ (cs : List (List Char)), joinSep sep (a :: cs) = a ++ joinTail sep cs
  | [] => by simp [joinSep, joinTail]
  | c :: cs => by
    show a ++ sep :: joinSep sep (c :: cs) = _
    rw [joinSep_eq_joinTail sep c cs]
    simp [joinTail]

theorem groupLoopAux_eq (sep : Char) :
    ∀ (n : Nat) (rest acc : List Char), rest.length ≤ n →
      groupLoopAux sep rest acc = acc ++ joinTail sep (chunk3 rest)
  | _, [], acc, _ => by simp [groupLoopAux, chunk3, joinTail]
  | _, [a], acc, _ => by simp [groupLoopAux, chunk3, joinTail]
  | _, [a, b], acc, _ => by simp [groupLoopAux, chunk3, joinTail]
  | 0, a :: b :: c :: r, acc, h => by simp at h
  | n + 1, a :: b :: c :: r, acc, h => by
    have hr : r.length ≤ n := by simp at h; omega
    show groupLoopAux sep r (acc ++ [sep, a, b, c]) = _
    rw [groupLoopAux_eq sep n r _ hr]
    show _ = acc ++ joinTail sep ([a, b, c] :: chunk3 r)
    simp [joinTail]

theorem groupLoopAux_spec (sep : Char) (rest acc : List Char) :
    groupLoopAux sep rest acc = acc ++ joinTail sep (chunk3 rest) :=
  groupLoopAux_eq sep rest.length rest acc (Nat.le_refl _)

/-- The grouping loop of `formatNumber` computes exactly the spec's
partition-and-join of the integer part. -/
theorem groupDigits_eq_specGrouped (sep : Char) (l : List Char) :
    groupDigits sep l = specGroupedIntPart sep l := by
  unfold groupDigits specGroupedIntPart specGroups
  rw [groupLoopAux_spec, joinSep_eq_joinTail]

theorem removeAllChar_joinTail_chunk3 (sep : Char) :
    ∀ (n : Nat) (m : List Char), m.length ≤ n → (∀ x ∈ m, x ≠ sep) →
      removeAllChar sep (joinTail sep (chunk3 m)) = m
  | _, [], _, _ => by simp [chunk3, joinTail, removeAllChar]
  | _, [a], _, h => by
    have ha := h a (by simp)
    simp [chunk3, joinTail, removeAllChar, List.filter_cons, ha]
  | _, [a, b], _, h => by
    have ha := h a (by simp)
    have hb := h b (by simp)
    simp [chunk3, joinTail, removeAllChar, List.filter_cons, ha, hb]
  | 0, a :: b :: c :: r, hl, _ => by simp at hl
  | n + 1, a :: b :: c :: r, hl, h => by
    have hr : r.length ≤ n := by simp at hl; omega
    have ha := h a (by simp)
    have hb := h b (by simp)
    have hc := h c (by simp)
    have hrc : ∀ x ∈ r, x ≠ sep := fun x hx => h x (by simp [hx])
    have hrec := removeAllChar_joinTail_chunk3 sep n r hr hrc
    show removeAllChar sep (joinTail sep ([a, b, c] :: chunk3 r)) = _
    simp only [joinTail]
    show removeAllChar sep (sep :: ([a, b, c] ++ joinTail sep (chunk3 r))) = _
    have hsplit : (sep :: ([a, b, c] ++ joinTail sep (chunk3 r)) : List Char) =
        ([sep] ++ [a, b, c]) ++ joinTail sep (chunk3 r) := by simp
    have h1 : removeAllChar sep [sep] = [] := by simp [removeAllChar, List.filter]
    have h3 : removeAllChar sep [a, b, c] = [a, b, c] := by
      apply removeAllChar_of_forall_ne
      intro x hx
      simp at hx
      rcases hx with rfl | rfl | rfl <;> assumption
    rw [hsplit, removeAllChar_append, removeAllChar_append, h1, h3, hrec]
    simp

theorem getLast?_joinTail_chunk3 (sep : Char) :
    ∀ (n : Nat) (m : List Char), m.length ≤ n → m ≠ [] →
      (joinTail sep (chunk3 m)).getLast? = m.getLast?
  | _, [], _, h => absurd rfl h
  | _, [a], _, _ => rfl
  | _, [a, b], _, _ => rfl
  | 0, a :: b :: c :: r, hl, _ => by simp at hl
  | n + 1, a :: b :: c :: r, hl, _ => by
    have hr : r.length ≤ n := by simp at hl; omega
    show (joinTail sep ([a, b, c] :: chunk3 r)).getLast? = _
    simp only [joinTail]
    match r with
    | [] => rfl
    | x :: xs =>
      have hrne : (x :: xs : List Char) ≠ [] := by simp
      have hjne : joinTail sep (chunk3 (x :: xs)) ≠ [] :=
        joinTail_ne_nil sep (chunk3_ne_nil hrne)
      rw [getLast?_cons_ne (fun hc => hjne (List.append_eq_nil.mp hc).2),
        getLast?_append_right _ hjne,
        getLast?_joinTail_chunk3 sep n (x :: xs) hr hrne]
      have e1 : ((a :: b :: c :: x :: xs : List Char)).getLast? = (x :: xs).getLast? := by
        rw [getLast?_cons_ne (by simp), getLast?_cons_ne (by simp),
          getLast?_cons_ne (by simp)]
      rw [e1]

/-- When the integer part is non-empty, grouping does not change its last
character. -/
theorem getLast?_groupDigits (sep : Char) (l : List Char) :
    (groupDigits sep l).getLast? = l.getLast? := by
  unfold groupDigits
  rw [groupLoopAux_spec]
  by_cases hd : l.drop (if l.length % 3 = 0 then 3 else l.length % 3) = []
  · rw [hd]
    have hlen : l.length ≤ (if l.length % 3 = 0 then 3 else l.length % 3) := by
      have := List.length_drop (if l.length % 3 = 0 then 3 else l.length % 3) l
      rw [hd] at this
      simp at this
      omega
    rw [List.take_of_length_le hlen]
    simp [chunk3, joinTail]
  · rw [getLast?_append_right _ (joinTail_ne_nil sep (chunk3_ne_nil hd)),
      getLast?_joinTail_chunk3 sep _ _ (Nat.le_refl _) hd]
    conv_rhs => rw [← List.take_append_drop (if l.length % 3 = 0 then 3 else l.length % 3) l]
    rw [getLast?_append_right _ hd]

/-- Grouping inserts only separators: removing every grouping separator from
the grouped integer part recovers the integer part, provided the separator
does not occur in it. -/
theorem removeAllChar_groupDigits (sep : Char) (l : List Char)
    (h : ∀ x ∈ l, x ≠ sep) : removeAllChar sep (groupDigits sep l) = l := by
  unfold groupDigits
  rw [groupLoopAux_spec, removeAllChar_append,
    removeAllChar_of_forall_ne (fun x hx => h x (List.mem_of_mem_take hx)),
    removeAllChar_joinTail_chunk3 sep _ _ (Nat.le_refl _)
      (fun x hx => h x (List.mem_of_mem_drop hx)),
    List.take_append_drop]

/-! ### `formatNumber` on canonical input, and the round trip -/

theorem ne_of_isDigit {c d : Char} (hc : c.isDigit = true) (hd : d.isDigit = false) :
    c ≠ d := by
  intro e
  subst e
  rw [hc] at hd
  cases hd

/-- With default options and no '.' in the input, `formatNumber` just groups. -/
theorem formatNumberL_noFrac (loc : IntlLocaleType) {A : List Char}
    (hA : '.' ∉ A) :
    formatNumberL loc A {} = groupDigits loc.groupingSeparator A := by
  simp [formatNumberL, splitParts01, splitFirst_of_not_mem hA]

/-- With default options, `formatNumber` groups the integer part and rejoins a
non-empty decimal part with the locale decimal separator. -/
theorem formatNumberL_frac (loc : IntlLocaleType) {A fd : List Char}
    (hA : '.' ∉ A) (hfd : '.' ∉ fd) (hne : fd ≠ []) :
    formatNumberL loc (A ++ '.' :: fd) {} =
      groupDigits loc.groupingSeparator A ++ loc.decimalSeparator :: fd := by
  simp [formatNumberL, splitParts01, splitFirst_append fd hA,
    splitFirst_of_not_mem hfd, hne]

theorem not_dot_mem {A : List Char} (hmem : SignDigits A) : '.' ∉ A := by
  intro hx
  rcases hmem '.' hx with h | h
  · exact absurd h (by decide)
  · exact absurd h (by decide)

theorem not_dsep_mem {loc : IntlLocaleType} {A : List Char} (hmem : SignDigits A)
    (hdd : loc.decimalSeparator.isDigit = false) (hdm : loc.decimalSeparator ≠ '-') :
    loc.decimalSeparator ∉ A := by
  intro hx
  rcases hmem _ hx with h | h
  · exact hdm h
  · rw [h] at hdd; cases hdd

theorem not_gsep_mem {loc : IntlLocaleType} {A : List Char} (hmem : SignDigits A)
    (hgd : loc.groupingSeparator.isDigit = false) (hgm : loc.groupingSeparator ≠ '-') :
    ∀ x ∈ A, x ≠ loc.groupingSeparator := by
  intro x hx e
  rcases hmem x hx with h | h
  · exact hgm (e ▸ h)
  · rw [e] at h; rw [h] at hgd; cases hgd

/-- Round trip, no decimal part: formatting a signed digit string and
canonicalizing back is the identity when neither separator is a digit
or '-' and the grouping separator's escape is a literal regex match. -/
theorem formatToNative_format_noFrac (loc : IntlLocaleType) {A : List Char}
    (hmem : SignDigits A)
    (hdd : loc.decimalSeparator.isDigit = false)
    (hdm : loc.decimalSeparator ≠ '-')
    (hgd : loc.groupingSeparator.isDigit = false)
    (hgm : loc.groupingSeparator ≠ '-')
    (hlit : regexEscapeIsLiteral loc.groupingSeparator = true) :
    formatToNativeNumberL loc (formatNumberL loc A {}) = A := by
  rw [formatNumberL_noFrac loc (not_dot_mem hmem)]
  have hend : endsWithDotComma (groupDigits loc.groupingSeparator A) = false := by
    apply endsWithDotComma_eq_false
    intro d hd
    have hA : A.getLast? = some d := by
      rw [← getLast?_groupDigits loc.groupingSeparator A]
      exact hd
    rcases hmem d (mem_of_getLast?_eq_some hA) with h | h
    · subst h; exact (by decide)
    · exact ⟨ne_of_isDigit h (by decide), ne_of_isDigit h (by decide)⟩
  simp only [formatToNativeNumberL, hend, if_false, Bool.false_eq_true]
  rw [removeAllEscaped_of_literal hlit,
    removeAllChar_groupDigits _ _ (not_gsep_mem hmem hgd hgm),
    replaceFirstChar_of_not_mem _ (not_dsep_mem hmem hdd hdm)]

/-- Round trip with a non-empty decimal part. -/
theorem formatToNative_format_frac (loc : IntlLocaleType) {A fd : List Char}
    (hmem : SignDigits A)
    (hfd : ∀ c ∈ fd, c.isDigit = true) (hne : fd ≠ [])
    (hdd : loc.decimalSeparator.isDigit = false)
    (hdm : loc.decimalSeparator ≠ '-')
    (hgd : loc.groupingSeparator.isDigit = false)
    (hgm : loc.groupingSeparator ≠ '-')
    (hsep : loc.decimalSeparator ≠ loc.groupingSeparator)
    (hlit : regexEscapeIsLiteral loc.groupingSeparator = true) :
    formatToNativeNumberL loc (formatNumberL loc (A ++ '.' :: fd) {}) =
      A ++ '.' :: fd := by
  have hfddot : '.' ∉ fd := fun hx => absurd (hfd '.' hx) (by decide)
  rw [formatNumberL_frac loc (not_dot_mem hmem) hfddot hne]
  have hend : endsWithDotComma
      (groupDigits loc.groupingSeparator A ++ loc.decimalSeparator :: fd) = false := by
    apply endsWithDotComma_eq_false
    intro d hd
    rw [getLast?_append_right _ (by simp),
      getLast?_cons_ne hne] at hd
    have : d ∈ fd := mem_of_getLast?_eq_some hd
    exact ⟨ne_of_isDigit (hfd d this) (by decide),
      ne_of_isDigit (hfd d this) (by decide)⟩
  simp only [formatToNativeNumberL, hend, if_false, Bool.false_eq_true]
  have htail : removeAllChar loc.groupingSeparator (loc.decimalSeparator :: fd) =
      loc.decimalSeparator :: fd := by
    apply removeAllChar_of_forall_ne
    intro x hx
    rcases List.mem_cons.mp hx with rfl | hx
    · exact hsep
    · exact fun e => by
        have := hfd x hx
        rw [e] at this
        rw [this] at hgd
        cases hgd
  rw [removeAllEscaped_of_literal hlit, removeAllChar_append,
    removeAllChar_groupDigits _ _ (not_gsep_mem hmem hgd hgm), htail,
    replaceFirstChar_append _ _ (not_dsep_mem hmem hdd hdm)]

theorem mk_data (s : String) : (⟨s.data⟩ : String) = s := by
  cases s
  rfl

theorem splitParts01_eq_some {c : Char} {l i rest : List Char}
    (h : splitFirst c l = some (i, rest)) :
    splitParts01 c l =
      (i, some (match splitFirst c rest with | none => rest | some pr => pr.1)) := by
  unfold splitParts01
  rw [h]
  show (match splitFirst c rest with
    | none => (i, some rest)
    | some (b1, _) => (i, some b1)) = _
  cases hr : splitFirst c rest with
  | none => rfl
  | some pr =>
    obtain ⟨b1, b2⟩ := pr
    rfl

/-! ## Claims -/

/-- C1 (counterexample to the claim as stated): valid locale descriptors
(single-character separators, distinct, non-empty) break the round trip in
two ways — a grouping separator '-' is stripped together with the sign of a
negative canonical string, and a grouping separator 'd' makes the source's
`new RegExp('\\' + sep, 'g')` the digit class `\d`, so every digit is deleted
and "1234567" comes back as "dd"; moreover "5." — digits followed by a bare
'.' — fits the claim's description of a canonical string but does not
round-trip under the default locale. -/
theorem C1_counterexample :
    (formatToNativeNumber
        { localeIdentifier := "xx", decimalSeparator := '.', groupingSeparator := '-' }
        (formatNumber
          { localeIdentifier := "xx", decimalSeparator := '.', groupingSeparator := '-' }
          "-123456" {}) ≠ "-123456") ∧
    formatToNativeNumber D_CLASS_LOCALE
      (formatNumber D_CLASS_LOCALE "1234567" {}) = "dd" ∧
    ("dd" : String) ≠ "1234567" ∧
    (formatToNativeNumber EN_US_LOCALE (formatNumber EN_US_LOCALE "5." {}) ≠ "5.") := by
  decide

/-- C1 (amended): for every locale whose separators are distinct single
characters, neither a digit nor '-', and whose grouping separator is not one
of the characters whose backslash-escape is a regex class, control or
assertion construct (so the source's escaped regex matches it literally), and
every canonical decimal string (optional leading '-', digits, optionally '.'
followed by at least one digit), `formatToNativeNumber` inverts
`formatNumber` when the latter is called without precision-reducing
options. -/
theorem C1_roundTrip (loc : IntlLocaleType)
    (hdd : loc.decimalSeparator.isDigit = false)
    (hdm : loc.decimalSeparator ≠ '-')
    (hgd : loc.groupingSeparator.isDigit = false)
    (hgm : loc.groupingSeparator ≠ '-')
    (hlit : regexEscapeIsLiteral loc.groupingSeparator = true)
    (hsep : loc.decimalSeparator ≠ loc.groupingSeparator)
    (sign intd frac : List Char)
    (hs : sign = [] ∨ sign = ['-'])
    (hi : ∀ c ∈ intd, c.isDigit = true)
    (hf : frac = [] ∨ ∃ fd, fd ≠ [] ∧ (∀ c ∈ fd, c.isDigit = true) ∧ frac = '.' :: fd) :
    formatToNativeNumber loc (formatNumber loc ⟨sign ++ intd ++ frac⟩ {}) =
      ⟨sign ++ intd ++ frac⟩ := by
  have hmem : SignDigits (sign ++ intd) := by
    intro x hx
    rcases List.mem_append.mp hx with hx | hx
    · rcases hs with rfl | rfl
      · simp at hx
      · simp at hx
        exact Or.inl hx
    · exact Or.inr (hi x hx)
  show (⟨formatToNativeNumberL loc (formatNumberL loc (sign ++ intd ++ frac) {})⟩ : String) = _
  rcases hf with rfl | ⟨fd, hne, hfd, rfl⟩
  · rw [List.append_nil, formatToNative_format_noFrac loc hmem hdd hdm hgd hgm hlit]
  · rw [formatToNative_format_frac loc hmem hfd hne hdd hdm hgd hgm hsep hlit]

/-- Witness for C1: the amended round trip instantiated at the default locale
on the canonical string "-1234567.89". -/
theorem C1_roundTrip_witness :
    (∀ c ∈ ['1', '2', '3', '4', '5', '6', '7'], c.isDigit = true) ∧
    formatToNativeNumber EN_US_LOCALE
      (formatNumber EN_US_LOCALE
        ⟨['-'] ++ ['1', '2', '3', '4', '5', '6', '7'] ++ '.' :: ['8', '9']⟩ {}) =
      ⟨['-'] ++ ['1', '2', '3', '4', '5', '6', '7'] ++ '.' :: ['8', '9']⟩ := by
  refine ⟨by decide, ?_⟩
  exact C1_roundTrip EN_US_LOCALE (by decide) (by decide) (by decide) (by decide)
    (by decide) (by decide) ['-'] ['1', '2', '3', '4', '5', '6', '7']
    ('.' :: ['8', '9']) (Or.inr rfl) (by decide)
    (Or.inr ⟨['8', '9'], by decide, by decide, rfl⟩)

/-- C2: with grouping not suppressed, `formatNumber` partitions the integer
part into groups of 3 digits from the right, the leftmost sized `len mod 3`
(or 3 when that is 0), joined by the locale grouping separator; in particular
"1234567" formats as "1,234,567" under the default locale and as "1.234.567"
under a grouping-'.'/decimal-',' locale. -/
theorem C2_grouping :
    (∀ (loc : IntlLocaleType) (s : String),
      formatNumber loc s {} = specFormatNumber loc s) ∧
    formatNumber EN_US_LOCALE "1234567" {} = "1,234,567" ∧
    formatNumber EU_STYLE_LOCALE "1234567" {} = "1.234.567" := by
  refine ⟨?_, by decide, by decide⟩
  intro loc s
  show (⟨formatNumberL loc s.data {}⟩ : String) = _
  unfold formatNumberL specFormatNumber
  simp only [groupDigits_eq_specGrouped]
  match (splitParts01 '.' s.data).2 with
  | some d =>
    by_cases hd : d ≠ [] <;> simp [hd]
  | none => rfl

/-- C3 (counterexample to the claim as stated): with `toFixed: 0`
(a non-negative integer) the option is falsy in JavaScript and ignored, so
the decimal part of "1234.5" is not reduced to 0 digits — the output keeps
".5", unlike the result of applying the fixed-point helper at precision 0. -/
theorem C3_counterexample :
    formatNumber EN_US_LOCALE "1234.5" { toFixed := some 0 } = "1,234.5" ∧
    bsToFixed "1234.5" 0 = "1235" ∧
    formatNumber EN_US_LOCALE (bsToFixed "1234.5" 0) {} = "1,235" ∧
    ("1,234.5" : String) ≠ "1,235" := by
  decide

/-- C3 (amended): for every positive `toFixed` precision, `formatNumber`
first applies the fixed-point decimal helper at exactly that precision and
then formats the result (grouping and separator substitution unchanged); in
particular "1234.5" with `toFixed: 2` yields "1,234.50". -/
theorem C3_toFixed (loc : IntlLocaleType) (s : String) (n : Nat) (b : Bool)
    (h : 0 < n) :
    formatNumber loc s { toFixed := some n, noGrouping := b } =
      formatNumber loc (bsToFixed s n) { noGrouping := b } ∧
    formatNumber EN_US_LOCALE "1234.5" { toFixed := some 2 } = "1,234.50" := by
  refine ⟨?_, by decide⟩
  have hn : n ≠ 0 := Nat.pos_iff_ne_zero.mp h
  show (⟨formatNumberL loc s.data { toFixed := some n, noGrouping := b }⟩ : String) =
    ⟨formatNumberL loc (bsToFixedL s.data n) { noGrouping := b }⟩
  unfold formatNumberL
  simp [hn]

/-- Witness for C3: the amended statement instantiated at precision 2. -/
theorem C3_toFixed_witness :
    0 < 2 ∧
    (formatNumber EN_US_LOCALE "7.125" { toFixed := some 2, noGrouping := false } =
      formatNumber EN_US_LOCALE (bsToFixed "7.125" 2) { noGrouping := false } ∧
     formatNumber EN_US_LOCALE "1234.5" { toFixed := some 2 } = "1,234.50") :=
  ⟨by decide, C3_toFixed EN_US_LOCALE "7.125" 2 false (by decide)⟩

/-- C4: `setIntlLocale` called with no descriptor throws (reports the error to
the caller) and never produces a new state, so the process-wide locale slot is
left unchanged by that call. -/
theorem C4_setLocale_missing (st : ProcState) :
    setIntlLocale none st = Except.error "Please select locale for internationalization" ∧
    (setIntlLocale none st).isOk = false :=
  ⟨rfl, rfl⟩

/-- C5: `setIntlLocale` called with a descriptor missing one or more required
fields does not throw: it installs the default locale (identifier "en_US",
decimal '.', grouping ',') and emits exactly one diagnostic warning. -/
theorem C5_setLocale_partial (st : ProcState) (l : IntlLocaleInput)
    (h : truthySep l.decimalSeparator = false ∨ truthySep l.groupingSeparator = false ∨
      truthyStr l.localeIdentifier = false) :
    setIntlLocale (some l) st = Except.ok
      { locale := EN_US_LOCALE,
        warnings := st.warnings ++
          ["Cannot recognize user locale preferences. Default will be used."] } := by
  unfold setIntlLocale
  rcases h with h | h | h <;> simp [h]

/-- Witness for C5: the spec's own example, a descriptor carrying only an
identifier ("fr_FR") and no separators. -/
theorem C5_setLocale_partial_witness :
    truthySep (IntlLocaleInput.decimalSeparator { localeIdentifier := some "fr_FR" }) = false ∧
    setIntlLocale (some { localeIdentifier := some "fr_FR" })
        { locale := EN_US_LOCALE, warnings := [] } =
      Except.ok
        { locale := EN_US_LOCALE,
          warnings := ["Cannot recognize user locale preferences. Default will be used."] } := by
  refine ⟨rfl, ?_⟩
  simpa using C5_setLocale_partial { locale := EN_US_LOCALE, warnings := [] }
    { localeIdentifier := some "fr_FR" } (Or.inl rfl)

/-- C6 (counterexample to the claim as stated): under the default locale,
`isValidInput ("Infinity")` returns true, yet the canonicalized string does
not parse as a finite number — the code tests `!isNaN(+s)`, which accepts
infinite values. -/
theorem C6_counterexample :
    isValidInput EN_US_LOCALE "Infinity" = true ∧
    parsesAsFiniteNumber (formatToNativeNumber EN_US_LOCALE "Infinity").data = false := by
  decide

/-- C6 (amended): `isValidInput` returns true when the value is exactly the
locale decimal separator, and otherwise canonicalizes (normalize a trailing
'.' or ',', strip grouping separators, replace the decimal separator with
'.') and returns true iff JavaScript numeric coercion of the result is not
NaN — which also accepts infinite values; the claim's concrete examples hold. -/
theorem C6_isValidInput :
    (∀ (loc : IntlLocaleType) (value : String),
      isValidInput loc value =
        (decide (value.data = [loc.decimalSeparator]) ||
          jsNotNaN (formatToNativeNumber loc value).data)) ∧
    isValidInput EN_US_LOCALE "1,234.56" = true ∧
    isValidInput EN_US_LOCALE "1.234.56" = false := by
  refine ⟨?_, by decide, by decide⟩
  intro loc value
  by_cases h : value.data = [loc.decimalSeparator] <;>
    simp [isValidInput, isValidInputL, formatToNativeNumber, h]

/-- C7 (counterexample to the claim as stated): for "1.2.3" (which contains
the default locale's decimal separator) with precision 5, the code keeps only
the text between the first and second separators and yields "1.2", not the
integer part plus the truncated fractional remainder "2.3"; and the empty
input — which contains no separator — is not returned unchanged but becomes
"0". -/
theorem C7_counterexample :
    truncateDecimals EN_US_LOCALE "1.2.3" (some 5) false = "1.2" ∧
    splitFirst '.' "1.2.3".data = some ("1".data, "2.3".data) ∧
    ("1.2" : String) ≠ ⟨"1".data ++ '.' :: List.take 5 "2.3".data⟩ ∧
    truncateDecimals EN_US_LOCALE "" none false = "0" ∧
    ("0" : String) ≠ "" := by
  decide

/-- C7 (amended): for an input containing the locale decimal separator,
`truncateDecimals` keeps the integer part and separator and truncates (never
rounds) to `precision` characters the text between the first and second
occurrences of the separator, discarding anything after a second occurrence;
a non-empty input without the separator is returned unchanged; the claim's
concrete truncation examples hold. -/
theorem C7_truncateDecimals (loc : IntlLocaleType) (v : String) (p : Nat)
    (ab : Bool) (i rest : List Char)
    (hsp : splitFirst loc.decimalSeparator v.data = some (i, rest)) :
    truncateDecimals loc v (some p) ab =
      ⟨i ++ loc.decimalSeparator ::
        List.take p (match splitFirst loc.decimalSeparator rest with
          | none => rest
          | some pr => pr.1)⟩ ∧
    (∀ (loc2 : IntlLocaleType) (w : String) (q : Option Nat) (ab2 : Bool),
      w.data ≠ [] → w.data.contains loc2.decimalSeparator = false →
      truncateDecimals loc2 w q ab2 = w) ∧
    truncateDecimals EN_US_LOCALE "12.34567" (some 2) false = "12.34" ∧
    truncateDecimals EN_US_LOCALE "12.999" (some 2) false = "12.99" := by
  refine ⟨?_, ?_, by decide, by decide⟩
  · have hdecomp : v.data = i ++ loc.decimalSeparator :: rest := splitFirst_sound hsp
    have hne : v.data ≠ [] := by
      rw [hdecomp]
      simp
    have hc : v.data.contains loc.decimalSeparator = true := by
      rw [hdecomp]
      simp
    show (⟨truncateDecimalsL loc v.data (some p) ab⟩ : String) = _
    simp only [truncateDecimalsL]
    rw [if_neg hne, if_pos hc, splitParts01_eq_some hsp]
    rfl
  · intro loc2 w q ab2 hne hnc
    show (⟨truncateDecimalsL loc2 w.data q ab2⟩ : String) = _
    unfold truncateDecimalsL
    rw [if_neg hne, if_neg (by rw [hnc]; simp)]

/-- Witness for C7: the amended statement instantiated on "12.34567" with
precision 2. -/
theorem C7_truncateDecimals_witness :
    splitFirst '.' ("12.34567" : String).data =
      some (['1', '2'], ['3', '4', '5', '6', '7']) ∧
    truncateDecimals EN_US_LOCALE "12.34567" (some 2) false =
      ⟨['1', '2'] ++ '.' ::
        List.take 2 (match splitFirst '.' ['3', '4', '5', '6', '7'] with
          | none => ['3', '4', '5', '6', '7']
          | some pr => pr.1)⟩ := by
  refine ⟨by decide, ?_⟩
  exact (C7_truncateDecimals EN_US_LOCALE "12.34567" 2 false ['1', '2']
    ['3', '4', '5', '6', '7'] (by decide)).1

/-- C8: when the input ends in '.' or ',', `formatNumberInput` strips that
character, formats the remainder with `formatNumber` (default options), and
re-appends the locale decimal separator; "12," yields "12." under the default
locale and "12," under a decimal-',' locale. -/
theorem C8_trailingSeparator (loc : IntlLocaleType) (input : String)
    (opts : IntlNumberFormatOptionsType)
    (h : endsWithDotComma input.data = true) :
    formatNumberInput loc input opts =
      formatNumber loc ⟨input.data.dropLast⟩ {} ++ ⟨[loc.decimalSeparator]⟩ ∧
    formatNumberInput EN_US_LOCALE "12," = "12." ∧
    formatNumberInput EU_STYLE_LOCALE "12," = "12," := by
  refine ⟨?_, by decide, by decide⟩
  show (⟨formatNumberInputL loc input.data opts⟩ : String) = _
  unfold formatNumberInputL
  rw [if_pos h]
  rfl

/-- Witness for C8: the trailing-separator branch at "12," under the default
locale. -/
theorem C8_trailingSeparator_witness :
    endsWithDotComma ("12," : String).data = true ∧
    formatNumberInput EN_US_LOCALE "12," {} =
      formatNumber EN_US_LOCALE ⟨("12," : String).data.dropLast⟩ {} ++
        ⟨[EN_US_LOCALE.decimalSeparator]⟩ := by
  refine ⟨by decide, ?_⟩
  exact (C8_trailingSeparator EN_US_LOCALE "12," {} (by decide)).1

/-- C9: every formatting operation of the module is a total function of its
string input — for arbitrary (also malformed) input each returns a string,
and `isValidInput` a boolean; no exception arises in the embedding, whose
only external call, the fixed-point helper, is total by its contract. -/
theorem C9_total (loc : IntlLocaleType) (s : String)
    (opts : IntlNumberFormatOptionsType) (p : Option Nat) (ab : Bool) :
    ∃ (r1 r2 r3 r4 r5 : String) (b : Bool),
      formatNumber loc s opts = r1 ∧ formatNumberInput loc s opts = r2 ∧
      truncateDecimals loc s p ab = r3 ∧ prettifyNumber loc s = r4 ∧
      formatToNativeNumber loc s = r5 ∧ isValidInput loc s = b :=
  ⟨_, _, _, _, _, _, rfl, rfl, rfl, rfl, rfl, rfl⟩

/-- C10 (counterexample to the claim as stated): "," consists only of the
default locale's grouping separators, yet `isValidInput` rejects it — the
trailing-',' normalization first turns it into the decimal separator, and
"." coerces to NaN; and under a locale with grouping separator 'd', "dd"
consists only of grouping separators, yet it is rejected — the regex `\d`
is the digit class and removes no 'd', so "dd" coerces to NaN. -/
theorem C10_counterexample :
    isValidInput EN_US_LOCALE "," = false ∧
    (∀ c ∈ ("," : String).data, c = EN_US_LOCALE.groupingSeparator) ∧
    isValidInput D_CLASS_LOCALE "dd" = false ∧
    (∀ c ∈ ("dd" : String).data, c = D_CLASS_LOCALE.groupingSeparator) := by
  decide

theorem getLast?_exists : ∀ {l : List Char}, l ≠ [] → ∃ d, l.getLast? = some d ∧ d ∈ l
  | [], h => absurd rfl h
  | [a], _ => ⟨a, rfl, by simp⟩
  | a :: b :: l, _ => by
    obtain ⟨d, hd, hm⟩ := getLast?_exists (l := b :: l) (by simp)
    exact ⟨d, hd, List.mem_cons_of_mem a hm⟩

/-- C10 (amended): the empty string is always accepted (it canonicalizes to
the empty string, which coerces to 0); a non-empty string consisting only of
grouping separators is accepted whenever the grouping separator is neither
'.' nor ',' (so the trailing-character normalization does not rewrite its
last character) and its backslash-escape is a literal regex match (so the
strip removes it); under the default locale, whose grouping separator is ',',
such strings are rejected, as they are under class-escape separators such as
'd'. -/
theorem C10_empty_valid :
    (∀ loc : IntlLocaleType, isValidInput loc "" = true) ∧
    (∀ (loc : IntlLocaleType) (v : List Char),
      loc.groupingSeparator ≠ '.' → loc.groupingSeparator ≠ ',' →
      regexEscapeIsLiteral loc.groupingSeparator = true → v ≠ [] →
      (∀ c ∈ v, c = loc.groupingSeparator) → isValidInputL loc v = true) := by
  constructor
  · intro loc
    show isValidInputL loc [] = true
    unfold isValidInputL
    rw [if_neg (by simp)]
    unfold formatToNativeNumberL
    rw [show endsWithDotComma [] = false from rfl]
    simp only [Bool.false_eq_true, if_false]
    rw [removeAllEscaped_nil]
    rfl
  · intro loc v hg1 hg2 hlit hne hall
    unfold isValidInputL
    by_cases hv : v = [loc.decimalSeparator]
    · rw [if_pos hv]
    · rw [if_neg hv]
      obtain ⟨d, hd, hm⟩ := getLast?_exists hne
      have hdg : d = loc.groupingSeparator := hall d hm
      have hend : endsWithDotComma v = false := by
        apply endsWithDotComma_eq_false
        intro e he
        have : e = d := by
          rw [hd] at he
          exact (Option.some.inj he).symm
        subst this
        subst hdg
        exact ⟨hg1, hg2⟩
      unfold formatToNativeNumberL
      rw [hend]
      simp only [Bool.false_eq_true, if_false]
      rw [removeAllEscaped_of_literal hlit, removeAllChar_eq_nil hall]
      rfl

/-- Witness for C10: a French-style locale with a space grouping separator
accepts the all-separator string "  ", and the empty string is accepted under
the default locale. -/
theorem C10_empty_valid_witness :
    (' ' ≠ '.' ∧ ' ' ≠ ',' ∧ regexEscapeIsLiteral ' ' = true ∧
      ([' ', ' '] : List Char) ≠ []) ∧
    isValidInput EN_US_LOCALE "" = true ∧
    isValidInputL FR_SPACE_LOCALE [' ', ' '] = true := by
  refine ⟨by decide, C10_empty_valid.1 EN_US_LOCALE, ?_⟩
  exact C10_empty_valid.2 FR_SPACE_LOCALE [' ', ' ']
    (by decide) (by decide) (by decide) (by decide) (by decide)

end Intl

